import Mathlib

/-!
Verification development for the `knowledge_vault` repository
(`src/knowledge_vault/storage.py`, `src/knowledge_vault/search.py`).

Python strings are modelled as `List Char` (Python indexes code points, so a
character list is the faithful model; Lean `String.Pos` is byte-based and is
not used).  Python floats carry only sums of small integers and two
rational similarity ratios here, so scores are modelled exactly in `ℚ`.
-/

namespace KnowledgeVault

/-- Model of a Python text value: a sequence of Unicode code points. -/
abbrev Str := List Char

/-- Model of Python `str.lower()` applied code-point-wise
(`Char.toLower`; agrees with Python on ASCII and on the CJK characters used
by the repository, which are case-less). -/
def lowerStr (s : Str) : Str := s.map Char.toLower

/-- Model of Python `str.strip()` with no arguments: remove leading and
trailing whitespace characters. -/
def trimStr (s : Str) : Str :=
  ((s.dropWhile Char.isWhitespace).reverse.dropWhile Char.isWhitespace).reverse

/-- Fuel-indexed worker for `splitWs` (structural recursion on the fuel,
so that concrete instances reduce inside the kernel; any fuel of at least
the string's length gives the same answer). -/
def splitWsF : Nat → Str → List Str
  | _, [] => []
  | 0, _ :: _ => []
  | fuel + 1, c :: cs =>
    if c.isWhitespace then splitWsF fuel cs
    else (c :: cs.takeWhile (fun x => !x.isWhitespace)) ::
      splitWsF fuel (cs.dropWhile (fun x => !x.isWhitespace))

/-- Model of Python `str.split()` with no arguments: split on runs of
whitespace, never producing empty words. -/
def splitWs (s : Str) : List Str := splitWsF s.length s

/-- Model of Python `str.split(",")`: split at every comma, keeping empty
pieces (as the source's tag-filter path does). -/
def splitComma (s : Str) : List Str := s.splitOnP (· = ',')

/-- Model of Python `" ".join(xs)`. -/
def joinSpace (xs : List Str) : Str := List.intercalate [' '] xs

/-- Model of Python `hay.find(needle)` (as an `Option`): least index at
which `needle` occurs as a contiguous substring of `hay`, `none` when the
Python call returns `-1`.  `find` of the empty string is `some 0`, as in
Python. -/
def findSub? (hay needle : Str) : Option Nat :=
  (List.range (hay.length + 1)).find? (fun i => decide (needle <+: hay.drop i))

/-- Model of the Python substring test `needle in hay`. -/
def isSub (needle hay : Str) : Prop := needle <:+: hay

instance (needle hay : Str) : Decidable (isSub needle hay) :=
  inferInstanceAs (Decidable (needle <:+: hay))

/-! ### The difflib similarity model

`SequenceMatcher(None, a, b).ratio()` from the Python standard library,
restricted to inputs below the autojunk threshold (`b` shorter than 200
characters), where no junk is in play: recursively pick the longest common
contiguous block (ties resolved at the lowest index in `a`, then the lowest
index in `b`, exactly as difflib's `find_longest_match` does), recurse on
the pieces to the left and to the right of the block, and sum the block
lengths `M`; the ratio is `2M / (len a + len b)`, and `1.0` when both
strings are empty (difflib `_calculate_ratio`). -/

/-- Length of the common prefix of two character lists: the length of the
maximal matching block that starts at a given pair of positions. -/
def runLen : Str → Str → Nat
  | x :: xs, y :: ys => if x = y then runLen xs ys + 1 else 0
  | _, _ => 0

/-- One candidate-step of difflib's `find_longest_match` scan: replace the
current best `(i, j, k)` by the block at `(i', j')` only when that block is
strictly longer. -/
def bestOf (a b : Str) (cur : Nat × Nat × Nat) (i j : Nat) : Nat × Nat × Nat :=
  if runLen (a.drop i) (b.drop j) > cur.2.2 then (i, j, runLen (a.drop i) (b.drop j))
  else cur

/-- Model of difflib `find_longest_match` on the whole strings (no junk):
the longest common contiguous block as `(start in a, start in b, length)`,
ties resolved at the lowest start in `a`, then the lowest start in `b`;
`(0, 0, 0)` when there is no common character. -/
def longestMatch (a b : Str) : Nat × Nat × Nat :=
  (List.range a.length).foldl
    (fun cur i => (List.range b.length).foldl (fun cur' j => bestOf a b cur' i j) cur)
    (0, 0, 0)

/-- Total number of matched characters `M` in the recursive
longest-common-block decomposition, with explicit fuel (the fuel
`a.length + b.length` used by `matchSum` always suffices, since every
recursive call strictly shrinks the combined length). -/
def matchSumF : Nat → Str → Str → Nat
  | 0, _, _ => 0
  | fuel + 1, a, b =>
    if (longestMatch a b).2.2 = 0 then 0
    else
      (longestMatch a b).2.2 +
        matchSumF fuel (a.take (longestMatch a b).1) (b.take (longestMatch a b).2.1) +
        matchSumF fuel (a.drop ((longestMatch a b).1 + (longestMatch a b).2.2))
          (b.drop ((longestMatch a b).2.1 + (longestMatch a b).2.2))

/-- Total number of matched characters `M` between two strings. -/
def matchSum (a b : Str) : Nat := matchSumF (a.length + b.length) a b

/-- Model of difflib `SequenceMatcher.ratio()` (no autojunk): `2M` over the
total length, and `1` when both strings are empty. -/
def similarity (a b : Str) : ℚ :=
  if a.length + b.length = 0 then 1
  else 2 * (matchSum a b : ℚ) / ((a.length : ℚ) + (b.length : ℚ))

/-! ### The record store (`storage.py`) -/

/-- The delimiter list of `KnowledgeStorage._generate_title`, in source
order: full-width full stop, ASCII full stop, ASCII question mark,
full-width question mark, ASCII exclamation mark, full-width exclamation
mark. -/
def sentenceDelims : List Char := ['。', '.', '?', '？', '!', '！']

/-- Model of the Python ellipsis string literal. -/
def dots : Str := ['.', '.', '.']

/-- Model of `KnowledgeStorage._generate_title`: take the first 50
characters of the content and strip them; walk the delimiter list in order
and, at the first delimiter whose first position in that stripped candidate
exceeds 10, replace the title by that many-plus-one characters of the
original content; finally append an ellipsis when the content is longer
than the title. -/
def generate_title (content : Str) : Str :=
  let title0 := trimStr (content.take 50)
  let title1 :=
    match sentenceDelims.findSome? (fun d =>
        match title0.findIdx? (fun x => x == d) with
        | some pos => if pos > 10 then some pos else none
        | none => none) with
    | some pos => content.take (pos + 1)
    | none => title0
  if content.length > title1.length then title1 ++ dots else title1

/-- The fixed keyword table of `KnowledgeStorage._auto_suggest_tags`, in
source (insertion) order. -/
def tagKeywords : List (Str × List Str) :=
  [("技术".data, ["技术".data, "编程".data, "代码".data, "api".data, "算法".data,
      "数据".data, "开发".data]),
   ("工作".data, ["工作".data, "项目".data, "会议".data, "任务".data, "计划".data,
      "deadline".data]),
   ("学习".data, ["学习".data, "教程".data, "笔记".data, "知识".data, "文档".data,
      "课程".data]),
   ("想法".data, ["想法".data, "思考".data, "观点".data, "感悟".data, "心得".data,
      "反思".data]),
   ("生活".data, ["生活".data, "日常".data, "个人".data, "健康".data, "休闲".data,
      "娱乐".data])]

/-- Model of `KnowledgeStorage._auto_suggest_tags`: lower-case
`f"{title} {content}"`, keep each category (in table order) any of whose
trigger substrings occurs, and truncate to the first three. -/
def autoSuggestTags (content title : Str) : List Str :=
  ((tagKeywords.filter (fun p =>
      p.2.any (fun kw => decide (isSub kw (lowerStr (title ++ ' ' :: content)))))).map
    Prod.fst).take 3

/-- Model of the manual-tag parse in `KnowledgeStorage.store`:
`[tag.strip() for tag in tags.split(",") if tag.strip()]`. -/
def manualTags (tags : Str) : List Str :=
  ((splitComma tags).map trimStr).filter (fun t => !t.isEmpty)

/-- Arguments of one `KnowledgeStorage.store` call.  `id` and `timestamp`
stand for the `uuid.uuid4()` and `datetime.now().isoformat()` values the
call draws; they are parameters of the model because they are
nondeterministic inputs of the source. -/
structure StoreArgs where
  content : Str
  title : Str
  tags : Str
  autoTag : Bool
  id : Str
  timestamp : Str
deriving DecidableEq

/-- Model of `all_tags = list(set(manual_tags + suggested_tags))`.  The
CPython `set` iteration order is unspecified, so it is modelled as
first-occurrence order; every claim about the stored tags is stated up to
set membership. -/
def allTags (a : StoreArgs) : List Str :=
  (manualTags a.tags ++
    (if a.autoTag then autoSuggestTags a.content a.title else [])).dedup

/-- The title value held by the `title` variable at the end of
`KnowledgeStorage.store`: the caller's title, or the generated one when the
caller's title is blank after stripping. -/
def storedTitle (a : StoreArgs) : Str :=
  if trimStr a.title = [] then generate_title a.content else a.title

/-- The persisted entity (one JSON object per log line). -/
structure Record where
  id : Str
  timestamp : Str
  title : Str
  content : Str
  tags : List Str
deriving DecidableEq

/-- The record dict built by `KnowledgeStorage.store` (note the source
stores `title.strip()` and `content.strip()`, not the raw inputs). -/
def mkRecord (a : StoreArgs) : Record :=
  { id := a.id, timestamp := a.timestamp, title := trimStr (storedTitle a),
    content := trimStr a.content, tags := allTags a }

/-- One line of the JSONL log: either a line that parses as a record
(`json.dumps` of a record round-trips through `json.loads`), or a line the
reader skips — a blank line or one that raises `json.JSONDecodeError`. -/
inductive Line where
  | ok (r : Record)
  | corrupt
deriving DecidableEq

/-- The record a log line yields on read, if any. -/
def lineRecord? : Line → Option Record
  | .ok r => some r
  | .corrupt => none

/-- Model of `KnowledgeStorage.get_all_records` on an existing log file:
parse each line in order, silently skipping the lines that do not parse. -/
def getAllRecords (st : List Line) : List Record := st.filterMap lineRecord?

/-- Model of `KnowledgeStorage.get_all_records` including the
`FileNotFoundError` path: a missing file yields the empty list. -/
def getAllRecordsFile : Option (List Line) → List Record
  | none => []
  | some st => getAllRecords st

/-- State transition of a successful `KnowledgeStorage.store` call: the
serialized record is appended as one new line at the end of the log. -/
def storeState (st : List Line) (a : StoreArgs) : List Line :=
  st ++ [Line.ok (mkRecord a)]

/-- Model of `KnowledgeStorage.get_by_id`: first record of
`get_all_records()` whose `id` equals the argument. -/
def getById (st : List Line) (rid : Str) : Option Record :=
  (getAllRecords st).find? (fun r => r.id == rid)

/-! ### The search engine (`search.py`) -/

/-- Title contribution of `KnowledgeSearch._calculate_score`: the
exact-substring bonus of 100 plus the fuzzy similarity times 30. -/
def titlePart (query title : Str) : ℚ :=
  (if isSub query title then 100 else 0) + similarity query title * 30

/-- Content contribution of `KnowledgeSearch._calculate_score`: the
exact-substring bonus of 50 plus the fuzzy similarity times 20. -/
def contentPart (query content : Str) : ℚ :=
  (if isSub query content then 50 else 0) + similarity query content * 20

/-- Tag contribution of `KnowledgeSearch._calculate_score`: the
exact-substring bonus of 75 against the space-joined tag list. -/
def tagsPart (query tags : Str) : ℚ :=
  if isSub query tags then 75 else 0

/-- Per-word boost of `KnowledgeSearch._calculate_score`: for a query word
longer than 2 characters, 10 / 5 / 15 for a substring hit in the title /
content / tag list. -/
def wordBonus (title content tags : Str) (w : Str) : ℚ :=
  if w.length > 2 then
    (if isSub w title then 10 else 0) + (if isSub w content then 5 else 0) +
      (if isSub w tags then 15 else 0)
  else 0

/-- Model of `KnowledgeSearch._calculate_score` (the `query` argument is
the already lower-cased query, exactly as the source passes it). -/
def calculate_score (r : Record) (query : Str) : ℚ :=
  titlePart query (lowerStr r.title) + contentPart query (lowerStr r.content) +
    tagsPart query (lowerStr (joinSpace r.tags)) +
    ((splitWs query).map
      (fun w => wordBonus (lowerStr r.title) (lowerStr r.content)
        (lowerStr (joinSpace r.tags)) w)).sum

/-- Model of `KnowledgeSearch._generate_snippet` (the `query` argument is
the already lower-cased query, as passed by the source). -/
def generate_snippet (content query : Str) (maxLength : Nat) : Str :=
  match (match findSub? (lowerStr content) query with
    | some p => some p
    | none =>
      (splitWs query).findSome? (fun w =>
        if w.length > 2 then findSub? (lowerStr content) w else none)) with
  | none => trimStr (content.take maxLength)
  | some p =>
    let start := p - maxLength / 3
    let snip := (content.drop start).take maxLength
    let snip2 := if start > 0 then dots ++ snip else snip
    let snip3 := if start + maxLength < content.length then snip2 ++ dots else snip2
    trimStr snip3

/-- Tag filter of `KnowledgeSearch.search`: when `tag_filter` is non-empty,
keep the records whose lower-cased tag set meets the comma-split,
stripped, lower-cased filter set (exact list membership, as in the
source). -/
def applyTagFilter (tagFilter : Str) (records : List Record) : List Record :=
  if tagFilter.isEmpty then records
  else
    records.filter (fun r =>
      ((splitComma tagFilter).map (fun t => lowerStr (trimStr t))).any
        (fun ft => (r.tags.map lowerStr).contains ft))

/-- The `scored_results` list of `KnowledgeSearch.search`: each record
paired with its score, in record order, keeping scores strictly above 0. -/
def scoredResults (records : List Record) (queryLower : Str) : List (ℚ × Record) :=
  (records.map (fun r => (calculate_score r queryLower, r))).filter
    (fun x => decide (x.1 > 0))

/-- Model of Python `list.sort(key=lambda x: x[0], reverse=True)` — a
stable sort by descending score — as a stable insertion: an element sinks
below strictly larger scores only, so equal scores keep their input
order.  (`sortDesc_perm`, `sortDesc_sorted` and the `claim_C6` stability
equation pin this down as the unique stable descending sort.) -/
def insertDesc (x : ℚ × Record) : List (ℚ × Record) → List (ℚ × Record)
  | [] => [x]
  | y :: ys => if x.1 ≥ y.1 then x :: y :: ys else y :: insertDesc x ys

/-- Stable descending sort by score (see `insertDesc`). -/
def sortDesc : List (ℚ × Record) → List (ℚ × Record)
  | [] => []
  | x :: xs => insertDesc x (sortDesc xs)

/-- One formatted entry of a `KnowledgeSearch.search` result. -/
structure ResultEntry where
  id : Str
  title : Str
  snippet : Str
  tags : List Str
  timestamp : Str
  score : ℚ
deriving DecidableEq

/-- The dict returned by `KnowledgeSearch.search`. -/
structure SearchOut where
  query : Str
  total : Nat
  results : List ResultEntry
deriving DecidableEq

/-- Model of `KnowledgeSearch.search`: read all records, apply the tag
filter, score against the lower-cased query keeping positive scores, sort
by score descending (stable), truncate to `limit`, and format with
snippets. -/
def search (st : List Line) (query : Str) (limit : Nat) (tagFilter : Str) :
    SearchOut :=
  { query := query
    total := (scoredResults (applyTagFilter tagFilter (getAllRecords st))
      (lowerStr query)).length
    results :=
      ((sortDesc (scoredResults (applyTagFilter tagFilter (getAllRecords st))
          (lowerStr query))).take limit).map
        (fun x =>
          { id := x.2.id, title := x.2.title,
            snippet := generate_snippet x.2.content (lowerStr query) 150,
            tags := x.2.tags, timestamp := x.2.timestamp, score := x.1 }) }

/-! ### Definitions written from the specification's words

Each of the following follows the sentence of `spec.md` / `CLAIMS.json`
it is named after, to be compared with the definition translated from the
source. -/

/-- The similarity function exactly as the claim C1 words it: the
Ratcliff–Obershelp ratio `2M / (len a + len b)`, and `0` (not `1`) when
both strings are empty. -/
def similaritySpec (a b : Str) : ℚ :=
  if a.length + b.length = 0 then 0
  else 2 * (matchSum a b : ℚ) / ((a.length : ℚ) + (b.length : ℚ))

/-- The relevance score exactly as claim C1 words it: 100/50/75 for the
lower-cased full query as a substring of lower-cased title / content /
space-joined tag list, plus 30 and 20 times `similaritySpec` against title
and content, plus per-word bonuses of 10/5/15 for each whitespace-delimited
query word longer than 2 characters. -/
def claimScore (r : Record) (q : Str) : ℚ :=
  let ql := lowerStr q
  let title := lowerStr r.title
  let content := lowerStr r.content
  let tagList := lowerStr (joinSpace r.tags)
  (if isSub ql title then 100 else 0) + (if isSub ql content then 50 else 0) +
    (if isSub ql tagList then 75 else 0) +
    similaritySpec ql title * 30 + similaritySpec ql content * 20 +
    ((splitWs ql).map (fun w =>
      if w.length > 2 then
        (if isSub w title then 10 else 0) + (if isSub w content then 5 else 0) +
          (if isSub w tagList then 15 else 0)
      else 0)).sum

/-- The score of claim C1 as amended: identical except that the
similarity of two empty strings is `1` (difflib `_calculate_ratio`), i.e.
it uses `similarity` instead of `similaritySpec`. -/
def claimScoreAmended (r : Record) (q : Str) : ℚ :=
  let ql := lowerStr q
  let title := lowerStr r.title
  let content := lowerStr r.content
  let tagList := lowerStr (joinSpace r.tags)
  (if isSub ql title then 100 else 0) + (if isSub ql content then 50 else 0) +
    (if isSub ql tagList then 75 else 0) +
    similarity ql title * 30 + similarity ql content * 20 +
    ((splitWs ql).map (fun w =>
      if w.length > 2 then
        (if isSub w title then 10 else 0) + (if isSub w content then 5 else 0) +
          (if isSub w tagList then 15 else 0)
      else 0)).sum

/-- The generated title exactly as claim C4 words it: the first 50
characters of the trimmed content; if the first occurrence of ANY sentence
delimiter within that candidate lies at a position greater than 10 the
title ends just after that delimiter; an ellipsis is appended whenever the
content is longer than the title. -/
def claimTitle (content : Str) : Str :=
  let candidate := (trimStr content).take 50
  let title1 :=
    match candidate.findIdx? (fun x => sentenceDelims.contains x) with
    | some pos => if pos > 10 then candidate.take (pos + 1) else candidate
    | none => candidate
  if content.length > title1.length then title1 ++ dots else title1

/-- The generated title of claim C4 as amended, following the corrected
wording: strip the first 50 characters of the (untrimmed) content to get
the candidate; walk the fixed delimiter list in its priority order and, at
the first delimiter whose first position within the candidate exceeds 10,
take that position plus one characters of the original (unstripped)
content as the title; append an ellipsis when the content is longer than
the resulting title. -/
def titleAmended (content : Str) : Str :=
  let candidate := trimStr (content.take 50)
  let title1 :=
    match sentenceDelims.findSome? (fun d =>
        match candidate.findIdx? (fun x => x == d) with
        | some pos => if pos > 10 then some pos else none
        | none => none) with
    | some pos => content.take (pos + 1)
    | none => candidate
  if content.length > title1.length then title1 ++ dots else title1

/-- The snippet exactly as claim C5 words it: the match position is the
first occurrence of the full query, else of the first long query word,
else position 0; the window always starts `maxLength/3` before the match
(clamped to 0) and the ellipsis prefix/suffix rules always apply. -/
def claimSnippet (content query : Str) (maxLength : Nat) : Str :=
  let pos : Nat :=
    match (match findSub? (lowerStr content) query with
      | some p => some p
      | none =>
        (splitWs query).findSome? (fun w =>
          if w.length > 2 then findSub? (lowerStr content) w else none)) with
    | some p => p
    | none => 0
  let start := pos - maxLength / 3
  let snip := (content.drop start).take maxLength
  let snip2 := if start > 0 then dots ++ snip else snip
  let snip3 := if start + maxLength < content.length then snip2 ++ dots else snip2
  trimStr snip3

/-- The snippet of claim C5 as amended, following the corrected wording:
when neither the full query nor any long query word occurs in the
lower-cased content, the snippet is simply the first `maxLength` characters
of the content, trimmed, with no ellipsis markers; otherwise the claimed
window-and-ellipsis construction applies unchanged. -/
def snippetAmended (content query : Str) (maxLength : Nat) : Str :=
  match (match findSub? (lowerStr content) query with
    | some p => some p
    | none =>
      (splitWs query).findSome? (fun w =>
        if w.length > 2 then findSub? (lowerStr content) w else none)) with
  | none => trimStr (content.take maxLength)
  | some p =>
    let start := p - maxLength / 3
    let snip := (content.drop start).take maxLength
    let snip2 := if start > 0 then dots ++ snip else snip
    let snip3 := if start + maxLength < content.length then snip2 ++ dots else snip2
    trimStr snip3

/-! ### Concrete sample inputs used by counterexamples and witnesses -/

/-- A record with every field empty: reachable by storing empty content
with no title and no tags (`store("")`). -/
def emptyRec : Record :=
  { id := [], timestamp := [], title := [], content := [], tags := [] }

/-- A small record used to instantiate hypotheses in witnesses. -/
def sampleRec : Record :=
  { id := "i".data, timestamp := "s".data, title := "ab".data,
    content := "b".data, tags := ["c".data] }

/-- Store-call arguments whose content carries surrounding whitespace. -/
def cexArgs : StoreArgs :=
  { content := " x ".data, title := "t".data, tags := [], autoTag := false,
    id := "i".data, timestamp := "s".data }

/-- The C4 counterexample content: twelve `a`s, then `!`, then five `b`s,
then `.`, then four `c`s — the first delimiter occurrence is the `!` at
position 12, but the source's priority loop truncates at the `.` at
position 18. -/
def cexTitleContent : Str := "aaaaaaaaaaaa!bbbbb.cccc".data

/-- The C5 counterexample content: 160 `a`s (longer than the default
window) containing no occurrence of the query `zzz`. -/
def cexSnippetContent : Str := List.replicate 160 'a'

/-- A record whose title contains the query `py`, for the C7 witness. -/
def witRec1 : Record :=
  { id := "i".data, timestamp := "s".data, title := "pyx".data,
    content := "c".data, tags := [] }

/-- A record identical to `witRec1` except that its title does not contain
the query `py`, for the C7 witness. -/
def witRec2 : Record :=
  { id := "i".data, timestamp := "s".data, title := "q".data,
    content := "c".data, tags := [] }

/-! ## Theorems -/

/-! ### Bounds on the similarity ratio -/

theorem runLen_le_left (a b : Str) : runLen a b ≤ a.length := by
  induction a generalizing b with
  | nil => simp [runLen]
  | cons x xs ih =>
    cases b with
    | nil => simp [runLen]
    | cons y ys =>
      simp only [runLen, List.length_cons]
      split
      · exact Nat.succ_le_succ (ih ys)
      · omega

theorem runLen_le_right (a b : Str) : runLen a b ≤ b.length := by
  induction a generalizing b with
  | nil => simp [runLen]
  | cons x xs ih =>
    cases b with
    | nil => simp [runLen]
    | cons y ys =>
      simp only [runLen, List.length_cons]
      split
      · exact Nat.succ_le_succ (ih ys)
      · omega

/-- Invariant carried through the `longestMatch` scan: the recorded block
lies inside both strings. -/
def lmInv (a b : Str) (cur : Nat × Nat × Nat) : Prop :=
  cur.1 + cur.2.2 ≤ a.length ∧ cur.2.1 + cur.2.2 ≤ b.length

theorem bestOf_inv {a b : Str} {cur : Nat × Nat × Nat} (h : lmInv a b cur)
    (i j : Nat) : lmInv a b (bestOf a b cur i j) := by
  unfold bestOf
  split
  · rename_i hgt
    have h1 : runLen (a.drop i) (b.drop j) ≤ a.length - i := by
      have := runLen_le_left (a.drop i) (b.drop j)
      simpa using this
    have h2 : runLen (a.drop i) (b.drop j) ≤ b.length - j := by
      have := runLen_le_right (a.drop i) (b.drop j)
      simpa using this
    have hpos : 0 < runLen (a.drop i) (b.drop j) := by omega
    constructor
    · simp only
      omega
    · simp only
      omega
  · exact h

theorem foldl_preserve {β γ : Type} (f : γ → β → γ) (P : γ → Prop)
    (h : ∀ c x, P c → P (f c x)) : ∀ (l : List β) (c : γ), P c → P (l.foldl f c) := by
  intro l
  induction l with
  | nil => intro c hc; simpa using hc
  | cons x xs ih =>
    intro c hc
    simpa using ih (f c x) (h c x hc)

theorem longestMatch_inv (a b : Str) : lmInv a b (longestMatch a b) := by
  unfold longestMatch
  exact foldl_preserve _ (lmInv a b)
    (fun cur i hc =>
      foldl_preserve _ (lmInv a b) (fun c j h => bestOf_inv h i j) _ cur hc)
    _ _ ⟨Nat.zero_le _, Nat.zero_le _⟩

theorem matchSumF_le_left : ∀ (fuel : Nat) (a b : Str), matchSumF fuel a b ≤ a.length := by
  intro fuel
  induction fuel with
  | zero => intro a b; simp [matchSumF]
  | succ n ih =>
    intro a b
    have hinv := longestMatch_inv a b
    unfold matchSumF
    split
    · exact Nat.zero_le _
    · rename_i hk
      have h1 := ih (a.take (longestMatch a b).1) (b.take (longestMatch a b).2.1)
      have h2 := ih (a.drop ((longestMatch a b).1 + (longestMatch a b).2.2))
        (b.drop ((longestMatch a b).2.1 + (longestMatch a b).2.2))
      simp only [List.length_take, List.length_drop] at h1 h2
      obtain ⟨ha, hb⟩ := hinv
      omega

theorem matchSumF_le_right : ∀ (fuel : Nat) (a b : Str), matchSumF fuel a b ≤ b.length := by
  intro fuel
  induction fuel with
  | zero => intro a b; simp [matchSumF]
  | succ n ih =>
    intro a b
    have hinv := longestMatch_inv a b
    unfold matchSumF
    split
    · exact Nat.zero_le _
    · rename_i hk
      have h1 := ih (a.take (longestMatch a b).1) (b.take (longestMatch a b).2.1)
      have h2 := ih (a.drop ((longestMatch a b).1 + (longestMatch a b).2.2))
        (b.drop ((longestMatch a b).2.1 + (longestMatch a b).2.2))
      simp only [List.length_take, List.length_drop] at h1 h2
      obtain ⟨ha, hb⟩ := hinv
      omega

theorem similarity_nonneg (a b : Str) : 0 ≤ similarity a b := by
  unfold similarity
  split
  · norm_num
  · rename_i h
    apply div_nonneg
    · positivity
    · positivity

theorem similarity_le_one (a b : Str) : similarity a b ≤ 1 := by
  unfold similarity
  split
  · norm_num
  · rename_i h
    have hd : (0 : ℚ) < (a.length : ℚ) + (b.length : ℚ) := by
      have hpos : 0 < a.length + b.length := Nat.pos_of_ne_zero h
      exact_mod_cast hpos
    rw [div_le_one hd]
    have h1 : (matchSum a b : ℚ) ≤ (a.length : ℚ) := by
      exact_mod_cast matchSumF_le_left _ a b
    have h2 : (matchSum a b : ℚ) ≤ (b.length : ℚ) := by
      exact_mod_cast matchSumF_le_right _ a b
    linarith


@[simp] theorem lineRecord?_ok (r : Record) : lineRecord? (Line.ok r) = some r := rfl

@[simp] theorem lineRecord?_corrupt : lineRecord? Line.corrupt = none := rfl


/-! ### Helper lemmas on the string model -/

theorem splitWsF_word_sub :
    ∀ (fuel : Nat) (s : Str), ∀ w ∈ splitWsF fuel s, w <:+: s := by
  intro fuel
  induction fuel with
  | zero =>
    intro s w hw
    cases s <;> simp [splitWsF] at hw
  | succ n ih =>
    intro s w hw
    cases s with
    | nil => simp [splitWsF] at hw
    | cons c cs =>
      simp only [splitWsF] at hw
      by_cases hc : c.isWhitespace
      · rw [if_pos hc] at hw
        exact List.infix_cons (ih cs w hw)
      · rw [if_neg hc] at hw
        rcases List.mem_cons.mp hw with hw | hw
        · subst hw
          refine ⟨[], cs.dropWhile (fun x => !x.isWhitespace), ?_⟩
          simp [List.takeWhile_append_dropWhile]
        · have h1 := ih _ w hw
          have h2 : (cs.dropWhile (fun x => !x.isWhitespace)) <:+ cs :=
            List.dropWhile_suffix _
          exact List.infix_cons (h1.trans h2.isInfix)

theorem splitWs_word_sub (s : Str) : ∀ w ∈ splitWs s, w <:+: s :=
  splitWsF_word_sub s.length s

/-! ### Helper lemmas on the store model -/

theorem filterMap_line_ok (l : List Record) :
    List.filterMap (lineRecord? ∘ Line.ok) l = l :=
  List.filterMap_some l

theorem getAllRecords_store (st : List Line) (a : StoreArgs) :
    getAllRecords (storeState st a) = getAllRecords st ++ [mkRecord a] := by
  simp [storeState, getAllRecords, List.filterMap_append]

theorem getAllRecords_foldl (calls : List StoreArgs) :
    ∀ st, getAllRecords (calls.foldl storeState st) =
      getAllRecords st ++ calls.map mkRecord := by
  induction calls with
  | nil => intro st; simp
  | cons a rest ih =>
    intro st
    simp only [List.foldl_cons, List.map_cons]
    rw [ih (storeState st a), getAllRecords_store]
    simp

/-! ### Helper lemmas on the stable sort model -/

theorem filter_insertDesc (s : ℚ) (x : ℚ × Record) (l : List (ℚ × Record)) :
    (insertDesc x l).filter (fun y => decide (y.1 = s)) =
      if x.1 = s then x :: l.filter (fun y => decide (y.1 = s))
      else l.filter (fun y => decide (y.1 = s)) := by
  induction l with
  | nil =>
    by_cases hxs : x.1 = s <;> simp [insertDesc, List.filter_cons, hxs]
  | cons y ys ih =>
    simp only [insertDesc]
    by_cases hxy : x.1 ≥ y.1
    · rw [if_pos hxy]
      by_cases hxs : x.1 = s <;> simp [List.filter_cons, hxs]
    · rw [if_neg hxy]
      have hlt : x.1 < y.1 := lt_of_not_ge hxy
      by_cases hxs : x.1 = s
      · have hys : ¬ (y.1 = s) := by
          rw [← hxs]
          exact (ne_of_gt hlt)
        simp [List.filter_cons, hys, ih, hxs]
      · by_cases hys : y.1 = s <;> simp [List.filter_cons, hys, ih, hxs]

theorem filter_sortDesc (s : ℚ) :
    ∀ l : List (ℚ × Record),
      (sortDesc l).filter (fun y => decide (y.1 = s)) =
        l.filter (fun y => decide (y.1 = s)) := by
  intro l
  induction l with
  | nil => rfl
  | cons x xs ih =>
    simp only [sortDesc]
    rw [filter_insertDesc]
    by_cases hxs : x.1 = s <;> simp [List.filter_cons, hxs, ih]

theorem insertDesc_perm (x : ℚ × Record) (l : List (ℚ × Record)) :
    (insertDesc x l).Perm (x :: l) := by
  induction l with
  | nil => exact List.Perm.refl _
  | cons y ys ih =>
    simp only [insertDesc]
    split
    · exact List.Perm.refl _
    · exact (List.Perm.cons y ih).trans (List.Perm.swap x y ys)

theorem sortDesc_perm : ∀ l : List (ℚ × Record), (sortDesc l).Perm l := by
  intro l
  induction l with
  | nil => exact List.Perm.refl _
  | cons x xs ih =>
    simp only [sortDesc]
    exact (insertDesc_perm x (sortDesc xs)).trans (List.Perm.cons x ih)

theorem insertDesc_sorted (x : ℚ × Record) {l : List (ℚ × Record)}
    (h : l.Sorted (fun a b => b.1 ≤ a.1)) :
    (insertDesc x l).Sorted (fun a b => b.1 ≤ a.1) := by
  induction l with
  | nil => simp [insertDesc]
  | cons y ys ih =>
    rw [List.sorted_cons] at h
    obtain ⟨hy, hys⟩ := h
    simp only [insertDesc]
    split
    · rename_i hxy
      rw [List.sorted_cons]
      refine ⟨?_, List.sorted_cons.mpr ⟨hy, hys⟩⟩
      intro b hb
      rcases List.mem_cons.mp hb with rfl | hb
      · exact hxy
      · exact le_trans (hy b hb) hxy
    · rename_i hxy
      rw [List.sorted_cons]
      refine ⟨?_, ih hys⟩
      intro b hb
      rcases List.mem_cons.mp ((insertDesc_perm x ys).mem_iff.mp hb) with rfl | hb
      · exact le_of_lt (lt_of_not_ge hxy)
      · exact hy b hb

theorem sortDesc_sorted :
    ∀ l : List (ℚ × Record), (sortDesc l).Sorted (fun a b => b.1 ≤ a.1) := by
  intro l
  induction l with
  | nil => simp [sortDesc]
  | cons x xs ih =>
    simp only [sortDesc]
    exact insertDesc_sorted x ih

/-! ### Helper lemmas on the score model -/

theorem isSub_nil (hay : Str) : isSub [] hay := List.nil_infix

theorem score_empty_query (r : Record) : 225 ≤ calculate_score r [] := by
  unfold calculate_score titlePart contentPart tagsPart
  rw [if_pos (isSub_nil (lowerStr r.title)), if_pos (isSub_nil (lowerStr r.content)),
    if_pos (isSub_nil (lowerStr (joinSpace r.tags))),
    show splitWs [] = [] from rfl]
  have s1 : 0 ≤ similarity [] (lowerStr r.title) * 30 :=
    mul_nonneg (similarity_nonneg _ _) (by norm_num)
  have s2 : 0 ≤ similarity [] (lowerStr r.content) * 20 :=
    mul_nonneg (similarity_nonneg _ _) (by norm_num)
  simp only [List.map_nil, List.sum_nil]
  linarith

theorem score_emptyRec : calculate_score emptyRec [] = 275 := by
  unfold calculate_score titlePart contentPart tagsPart emptyRec
  rw [show joinSpace [] = [] from rfl, show lowerStr [] = [] from rfl]
  simp only [if_pos (isSub_nil ([] : Str)),
    show similarity [] [] = 1 by simp [similarity],
    show splitWs [] = [] from rfl, List.map_nil, List.sum_nil]
  norm_num

theorem scoredResults_pos (records : List Record) (q : Str)
    (h : ∀ r ∈ records, 0 < calculate_score r q) :
    scoredResults records q = records.map (fun r => (calculate_score r q, r)) := by
  unfold scoredResults
  rw [List.filter_eq_self]
  intro x hx
  rcases List.mem_map.mp hx with ⟨r, hr, rfl⟩
  exact decide_eq_true (h r hr)


/-! ## Claim theorems -/

/-- Claim C1, counterexample.  The claim defines similarity as 0 when both
strings are empty, but difflib's ratio — and hence the source — yields 1
there: on the all-empty record and the empty query the source computes
275 = 225 + 30·1 + 20·1 while the claimed formula computes 225. -/
theorem claim_C1_counterexample :
    calculate_score emptyRec (lowerStr []) ≠ claimScore emptyRec [] := by
  rw [show lowerStr [] = ([] : Str) from rfl, score_emptyRec]
  unfold claimScore emptyRec
  rw [show joinSpace [] = [] from rfl, show lowerStr [] = [] from rfl]
  simp only [if_pos (isSub_nil ([] : Str)),
    show similaritySpec [] [] = 0 by simp [similaritySpec],
    show splitWs [] = [] from rfl, List.map_nil, List.sum_nil]
  norm_num

/-- Claim C1 as amended: for every record and query, the relevance score
equals the claimed decomposition — 100/50/75 substring bonuses, 30 and 20
times the Ratcliff–Obershelp similarity against title and content, and the
10/5/15 per-word bonuses — with the similarity of two empty strings being
1 (not 0), as difflib computes it.  The hypotheses keep the statement
within the regime where difflib applies no autojunk heuristic (fields
shorter than 200 characters), which the similarity model is faithful to. -/
theorem claim_C1 (r : Record) (q : Str) (_ht : r.title.length < 200)
    (_hc : r.content.length < 200) :
    calculate_score r (lowerStr q) = claimScoreAmended r q := by
  simp only [calculate_score, claimScoreAmended, titlePart, contentPart, tagsPart,
    wordBonus]
  ring

/-- Witness for `claim_C1` at a concrete record and query. -/
theorem claim_C1_witness :
    sampleRec.title.length < 200 ∧ sampleRec.content.length < 200 ∧
      calculate_score sampleRec (lowerStr "a".data) = claimScoreAmended sampleRec "a".data :=
  ⟨by decide, by decide, claim_C1 sampleRec "a".data (by decide) (by decide)⟩

/-- Claim C2, counterexample.  The source stores `content.strip()`, not the
verbatim content: storing `" x "` and fetching the record back by id yields
content `"x"`. -/
theorem claim_C2_counterexample :
    (getById (storeState [] cexArgs) cexArgs.id).map Record.content ≠
      some cexArgs.content := by
  decide

/-- Claim C2 as amended: storing and then fetching by the returned id
(with no intervening writes, and the fresh id not colliding with any
already-stored record, which the spec's id-uniqueness invariant
guarantees) returns a record whose content is the TRIMMED stored content,
and whose tags are exactly (as a duplicate-free set) the union of the
comma-split, trimmed, non-empty manual tags with the auto-suggested tags
when `autoTag` is set. -/
theorem claim_C2 (st : List Line) (a : StoreArgs)
    (hfresh : ∀ r ∈ getAllRecords st, r.id ≠ a.id) :
    getById (storeState st a) a.id = some (mkRecord a) ∧
      (mkRecord a).content = trimStr a.content ∧
      (∀ t, t ∈ (mkRecord a).tags ↔
        t ∈ manualTags a.tags ∨
          (a.autoTag = true ∧ t ∈ autoSuggestTags a.content a.title)) ∧
      (mkRecord a).tags.Nodup := by
  refine ⟨?_, rfl, ?_, List.nodup_dedup _⟩
  · unfold getById
    rw [getAllRecords_store, List.find?_append]
    have hnone : (getAllRecords st).find? (fun r => r.id == a.id) = none := by
      rw [List.find?_eq_none]
      intro x hx h
      exact hfresh x hx (by simpa using h)
    rw [hnone, Option.none_or]
    have : (mkRecord a).id == a.id := by simp [mkRecord]
    simp [List.find?_cons, this]
  · intro t
    simp only [mkRecord, allTags, List.mem_dedup, List.mem_append]
    cases hauto : a.autoTag <;> simp

/-- Witness for `claim_C2` on an empty store. -/
theorem claim_C2_witness :
    (∀ r ∈ getAllRecords [], r.id ≠ cexArgs.id) ∧
      (getById (storeState [] cexArgs) cexArgs.id = some (mkRecord cexArgs) ∧
        (mkRecord cexArgs).content = trimStr cexArgs.content ∧
        (∀ t, t ∈ (mkRecord cexArgs).tags ↔
          t ∈ manualTags cexArgs.tags ∨
            (cexArgs.autoTag = true ∧
              t ∈ autoSuggestTags cexArgs.content cexArgs.title)) ∧
        (mkRecord cexArgs).tags.Nodup) :=
  ⟨by simp [getAllRecords], claim_C2 [] cexArgs (by simp [getAllRecords])⟩

/-- Claim C3: starting from an empty store, N successful `store` calls
leave a log whose `getAllRecords` is exactly the N stored records in call
order, and a `store` call only ever appends — the prior log is a prefix of
the new one, so no previously appended record is mutated or removed (all
read operations are pure functions of the log in this model). -/
theorem claim_C3 :
    (∀ calls : List StoreArgs,
      getAllRecords (calls.foldl storeState []) = calls.map mkRecord) ∧
      ∀ (st : List Line) (a : StoreArgs), st <+: storeState st a := by
  constructor
  · intro calls
    rw [getAllRecords_foldl]
    simp [getAllRecords]
  · intro st a
    exact ⟨[Line.ok (mkRecord a)], rfl⟩

/-- Claim C4, counterexample.  On `"aaaaaaaaaaaa!bbbbb.cccc"` the first
delimiter occurrence is the `!` at position 12, so the claimed algorithm
titles `"aaaaaaaaaaaa!..."`; the source walks the delimiter list in
priority order and finds `.` (ahead of `!` in the list) at position 18,
titling `"aaaaaaaaaaaa!bbbbb...."`. -/
theorem claim_C4_counterexample :
    generate_title cexTitleContent ≠ claimTitle cexTitleContent := by
  decide

/-- Claim C4 as amended: the candidate is the stripped first-50-characters
prefix of the content (strip after truncation, not before); the delimiter
list is scanned in its fixed priority order and the first delimiter whose
first position in the candidate exceeds 10 wins (not the earliest
occurrence of any delimiter); the title is then that position plus one
characters of the original, unstripped content; an ellipsis is appended
whenever the content is longer than the resulting title. -/
theorem claim_C4 (content : Str) : generate_title content = titleAmended content := rfl

set_option maxRecDepth 400000 in
/-- Claim C5, counterexample.  When neither the query nor any long query
word occurs in the content the source returns the bare first-150-character
prefix with no ellipsis; the claimed algorithm treats it as a match at
position 0 and appends an ellipsis when the window does not reach the end:
on 160 `a`s with query `"zzz"` they differ. -/
theorem claim_C5_counterexample :
    generate_snippet cexSnippetContent "zzz".data 150 ≠
      claimSnippet cexSnippetContent "zzz".data 150 := by
  decide

/-- Claim C5 as amended: with a match (of the full query, else of the
first matching query word longer than 2 characters) the snippet is the
claimed window — `maxLength` characters from `maxLength/3` before the
match, clamped to 0, with ellipsis markers when the window misses either
end, trimmed; with NO match the snippet is simply the trimmed first
`maxLength` characters of the content with no ellipsis markers. -/
theorem claim_C5 (content query : Str) (maxLength : Nat) :
    generate_snippet content query maxLength = snippetAmended content query maxLength := rfl

/-- Claim C6: the sort of `search` is stable with no secondary key — for
every score value, the ranked sequence restricted to that score equals the
post-filter scored sequence restricted to that score (so any two records
with equal scores keep their relative order), and the post-filter scored
sequence is a sublist of the record sequence read from the log, i.e. store
order, oldest first. -/
theorem claim_C6 (st : List Line) (query tagFilter : Str) (s : ℚ) :
    (sortDesc (scoredResults (applyTagFilter tagFilter (getAllRecords st))
        (lowerStr query))).filter (fun y => decide (y.1 = s)) =
      (scoredResults (applyTagFilter tagFilter (getAllRecords st))
        (lowerStr query)).filter (fun y => decide (y.1 = s)) ∧
      ((scoredResults (applyTagFilter tagFilter (getAllRecords st))
        (lowerStr query)).map Prod.snd).Sublist
        (applyTagFilter tagFilter (getAllRecords st)) := by
  constructor
  · exact filter_sortDesc s _
  · unfold scoredResults
    have h1 := (List.filter_sublist (p := fun x : ℚ × Record => decide (x.1 > 0))
      ((applyTagFilter tagFilter (getAllRecords st)).map
        (fun r => (calculate_score r (lowerStr query), r)))).map Prod.snd
    rw [List.map_map] at h1
    have h2 : (applyTagFilter tagFilter (getAllRecords st)).map
        (Prod.snd ∘ fun r => (calculate_score r (lowerStr query), r)) =
        applyTagFilter tagFilter (getAllRecords st) := List.map_id' _
    rw [h2] at h1
    exact h1

/-- Claim C7: for every query, a record whose lower-cased title contains
the lower-cased query as a substring scores strictly higher than an
otherwise identical record whose title does not (the gap is at least
100 − 30 since the similarity ratio lies in [0, 1] and every long query
word is itself a substring of the containing title). -/
theorem claim_C7 (q i1 ts content : Str) (tags : List Str) (t1 t2 : Str)
    (h1 : isSub (lowerStr q) (lowerStr t1)) (h2 : ¬ isSub (lowerStr q) (lowerStr t2)) :
    calculate_score
        { id := i1, timestamp := ts, title := t2, content := content, tags := tags }
        (lowerStr q) <
      calculate_score
        { id := i1, timestamp := ts, title := t1, content := content, tags := tags }
        (lowerStr q) := by
  unfold calculate_score
  dsimp only
  have hA : 100 ≤ titlePart (lowerStr q) (lowerStr t1) := by
    unfold titlePart
    rw [if_pos h1]
    have := mul_nonneg (similarity_nonneg (lowerStr q) (lowerStr t1))
      (by norm_num : (0:ℚ) ≤ 30)
    linarith
  have hB : titlePart (lowerStr q) (lowerStr t2) ≤ 30 := by
    unfold titlePart
    rw [if_neg h2]
    have hle := similarity_le_one (lowerStr q) (lowerStr t2)
    have := mul_le_mul_of_nonneg_right hle (by norm_num : (0:ℚ) ≤ 30)
    linarith
  have hS : ((splitWs (lowerStr q)).map
        (fun w => wordBonus (lowerStr t2) (lowerStr content)
          (lowerStr (joinSpace tags)) w)).sum ≤
      ((splitWs (lowerStr q)).map
        (fun w => wordBonus (lowerStr t1) (lowerStr content)
          (lowerStr (joinSpace tags)) w)).sum := by
    apply List.sum_le_sum
    intro w hw
    unfold wordBonus
    by_cases hlen : w.length > 2
    · rw [if_pos hlen, if_pos hlen]
      have hw1 : isSub w (lowerStr t1) := (splitWs_word_sub _ w hw).trans h1
      rw [if_pos hw1]
      have : (if isSub w (lowerStr t2) then (10:ℚ) else 0) ≤ 10 := by
        split <;> norm_num
      linarith
    · rw [if_neg hlen, if_neg hlen]
  linarith

/-- Witness for `claim_C7` at concrete titles. -/
theorem claim_C7_witness :
    isSub (lowerStr "py".data) (lowerStr "pyx".data) ∧
      ¬ isSub (lowerStr "py".data) (lowerStr "q".data) ∧
      calculate_score witRec2 (lowerStr "py".data) <
        calculate_score witRec1 (lowerStr "py".data) :=
  ⟨by decide, by decide,
    claim_C7 "py".data "i".data "s".data "c".data [] "pyx".data "q".data
      (by decide) (by decide)⟩

/-- Claim C8: `getAllRecords` yields exactly the well-formed records of
the log in order — a log with one unparsable line among K well-formed
lines yields exactly those K records (the corrupt line is skipped
silently) — and a missing log file yields the empty list, not an error. -/
theorem claim_C8 :
    (∀ pre post : List Record,
      getAllRecordsFile (some (pre.map Line.ok ++ Line.corrupt :: post.map Line.ok)) =
        pre ++ post) ∧
      getAllRecordsFile none = [] := by
  constructor
  · intro pre post
    simp [getAllRecordsFile, getAllRecords, List.filterMap_append, List.filterMap_cons,
      List.filterMap_map, filterMap_line_ok]
  · rfl

/-- Claim C9, counterexample.  An empty query is not rejected and no
`ValidationError` exists in the source: searching an one-record store with
the empty query returns that record (total 1, one result), because the
empty string is a substring of every field and the record scores 275. -/
theorem claim_C9_counterexample :
    (search [Line.ok emptyRec] [] 10 []).total = 1 ∧
      (search [Line.ok emptyRec] [] 10 []).results.length = 1 := by
  have e1 : getAllRecords [Line.ok emptyRec] = [emptyRec] := rfl
  have e2 : applyTagFilter [] [emptyRec] = [emptyRec] := rfl
  have e3 : scoredResults [emptyRec] [] = [(calculate_score emptyRec [], emptyRec)] := by
    unfold scoredResults
    rw [List.map_cons, List.map_nil, List.filter_cons,
      if_pos (decide_eq_true (lt_of_lt_of_le (by norm_num) (score_empty_query emptyRec)))]
    rfl
  constructor
  · show (scoredResults (applyTagFilter [] (getAllRecords [Line.ok emptyRec]))
      (lowerStr [])).length = 1
    rw [e1, e2, show lowerStr [] = ([] : Str) from rfl, e3]
    rfl
  · show (((sortDesc (scoredResults (applyTagFilter [] (getAllRecords [Line.ok emptyRec]))
      (lowerStr []))).take 10).map _).length = 1
    rw [e1, e2, show lowerStr [] = ([] : Str) from rfl, e3]
    rfl

/-- Claim C9 as amended: the core performs no input validation at all —
there is no `ValidationError` in the source; an empty query is accepted by
`search`, scores at least 225 against every record (the empty string is a
substring of everything), and therefore every stored record matches:
`search` with the empty query and no tag filter reports every record of
the log as a hit instead of rejecting the input. -/
theorem claim_C9 :
    (∀ r : Record, 225 ≤ calculate_score r []) ∧
      ∀ (recs : List Record) (limit : Nat),
        (search (recs.map Line.ok) [] limit []).total = recs.length := by
  constructor
  · exact score_empty_query
  · intro recs limit
    show (scoredResults (applyTagFilter [] (getAllRecords (recs.map Line.ok)))
      (lowerStr [])).length = recs.length
    have e1 : getAllRecords (recs.map Line.ok) = recs := by
      simp [getAllRecords, List.filterMap_map, filterMap_line_ok]
    have e2 : applyTagFilter [] recs = recs := rfl
    rw [e1, e2, show lowerStr [] = ([] : Str) from rfl,
      scoredResults_pos recs []
        (fun r _ => lt_of_lt_of_le (by norm_num) (score_empty_query r))]
    simp

end KnowledgeVault
